import Mathlib

/-!
Verification of the Backfill state store (`internal/statestore/backfill.go`).

The Redis backend is embedded shallowly: the three logical sub-structures the
store touches (the flat `id -> bytes` keyspace, the `backfill_last_ack_time`
sorted set and the `allBackfills` hash) are association lists inside a
`RedisState`, and every Redis command the Go file issues is a pure function on
that state.  Each fallible step of an operation (connection acquisition, each
`Do`, each `Send`) takes an explicit Boolean fault flag: `true` means that step
returns an error, in which case the command does not reach the engine and the
state is untouched.  `time.Now()` is passed in as an explicit integer
(UnixNano) parameter.
-/

namespace OpenMatchBackfill

/-! ## Association lists (model of the Redis keyspace, sorted set and hash) -/

/-- First-match lookup in an association list keyed by strings. -/
def alLookup {α : Type} (k : String) : List (String × α) → Option α
  | [] => none
  | (k₁, v) :: t => if k₁ = k then some v else alLookup k t

/-- Remove every binding of key `k`. -/
def alErase {α : Type} (k : String) : List (String × α) → List (String × α)
  | [] => []
  | (k₁, v) :: t => if k₁ = k then alErase k t else (k₁, v) :: alErase k t

/-- Upsert: bind `k` to `v`, dropping any previous binding of `k`. -/
def alInsert {α : Type} (k : String) (v : α) (l : List (String × α)) :
    List (String × α) :=
  (k, v) :: alErase k l

/-! ## Redis state and the commands issued by `backfill.go`

The Go file uses exactly one sorted set (`backfill_last_ack_time`) and one
hash (`allBackfills`), so the model carries them as dedicated fields next to
the flat keyspace used for the serialized backfill records. -/

/-- The portion of the Redis database the backfill store operates on:
`kv` is the flat keyspace (`SETNX`/`GET`/`SET`/`DEL`), `ack` is the
`backfill_last_ack_time` sorted set (member, score), `index` is the
`allBackfills` hash (field, value). -/
structure RedisState where
  kv : List (String × List Nat)
  ack : List (String × Int)
  index : List (String × String)
deriving DecidableEq, Repr

/-- `SETNX key value`: sets the key only if absent, replying 1 on success
and 0 (state unchanged) when the key already holds a value. -/
def rSETNX (st : RedisState) (key : String) (value : List Nat) :
    RedisState × Int :=
  match alLookup key st.kv with
  | some _ => (st, 0)
  | none => ({ st with kv := alInsert key value st.kv }, 1)

/-- `GET key`: the stored bytes, or `none` when the key is absent. -/
def rGET (st : RedisState) (key : String) : Option (List Nat) :=
  alLookup key st.kv

/-- `SET key value`: unconditional overwrite. -/
def rSET (st : RedisState) (key : String) (value : List Nat) : RedisState :=
  { st with kv := alInsert key value st.kv }

/-- `DEL key`: idempotent removal from the flat keyspace. -/
def rDEL (st : RedisState) (key : String) : RedisState :=
  { st with kv := alErase key st.kv }

/-- `ZADD backfill_last_ack_time score member`: upsert the member's score. -/
def rZADD (st : RedisState) (score : Int) (member : String) : RedisState :=
  { st with ack := alInsert member score st.ack }

/-- `ZRANGEBYSCORE backfill_last_ack_time lo hi`: the members whose score
lies in the closed interval `[lo, hi]`. -/
def rZRANGEBYSCORE (st : RedisState) (lo hi : Int) : List String :=
  (st.ack.filter (fun p => decide (lo ≤ p.2 ∧ p.2 ≤ hi))).map Prod.fst

/-- `ZREM backfill_last_ack_time member`. -/
def rZREM (st : RedisState) (member : String) : RedisState :=
  { st with ack := alErase member st.ack }

/-- `HSET allBackfills field value`. -/
def rHSET (st : RedisState) (field value : String) : RedisState :=
  { st with index := alInsert field value st.index }

/-- `HDEL allBackfills field`. -/
def rHDEL (st : RedisState) (field : String) : RedisState :=
  { st with index := alErase field st.index }

/-- `HGETALL allBackfills`: the full field/value contents of the hash. -/
def rHGETALL (st : RedisState) : List (String × String) :=
  st.index

/-! ## Data model and serialization

`pb.Backfill` carries an id and a generation (the remaining payload fields are
opaque to the store and play no role in any claim).  `ipb.BackfillInternal`
is the persisted record: the (possibly nil) backfill plus its ticket ids. -/

/-- The fields of `pb.Backfill` the state store reads (`Id`, `Generation`);
the rest of the message is opaque payload. -/
structure Backfill where
  id : String
  generation : Int
deriving DecidableEq, Repr

/-- `ipb.BackfillInternal`: the persisted record `{Backfill, TicketIds}`.
The Go pointer `*pb.Backfill` may be nil, hence the `Option`. -/
structure BackfillInternal where
  backfill : Option Backfill
  ticketIds : List String
deriving DecidableEq, Repr

/-- `backfill.GetId()`: the protobuf getter returns `""` on a nil receiver. -/
def getId : Option Backfill → String
  | none => ""
  | some b => b.id

/-- Modelled from the spec: length-prefixed encoding of a string, standing in
for its protobuf wire encoding (`proto.Marshal` is library code outside this
repository; the spec only requires a deterministic encode/decode scheme). -/
def encString (s : String) : List Nat :=
  s.data.length :: s.data.map Char.toNat

/-- Decoder matching `encString`; returns the string and the remaining
bytes, or `none` on truncated input. -/
def decString : List Nat → Option (String × List Nat)
  | [] => none
  | n :: rest =>
    if n ≤ rest.length then
      some (⟨(rest.take n).map Char.ofNat⟩, rest.drop n)
    else none

/-- Modelled from the spec: sign-and-magnitude encoding of an integer field,
standing in for its protobuf wire encoding. -/
def encInt (i : Int) : List Nat :=
  if 0 ≤ i then [0, i.toNat] else [1, i.natAbs]

/-- Decoder matching `encInt`. -/
def decInt : List Nat → Option (Int × List Nat)
  | 0 :: n :: rest => some ((n : Int), rest)
  | 1 :: n :: rest => some (-(n : Int), rest)
  | _ => none

/-- Concatenated encodings of a list of strings. -/
def encStrings : List String → List Nat
  | [] => []
  | s :: t => encString s ++ encStrings t

/-- Count-prefixed encoding of a repeated string field. -/
def encStringList (l : List String) : List Nat :=
  l.length :: encStrings l

/-- Decode exactly `n` strings. -/
def decStrings : Nat → List Nat → Option (List String × List Nat)
  | 0, rest => some ([], rest)
  | n + 1, rest =>
    match decString rest with
    | none => none
    | some (s, r) =>
      match decStrings n r with
      | none => none
      | some (l, r₁) => some (s :: l, r₁)

/-- Decoder matching `encStringList`. -/
def decStringList : List Nat → Option (List String × List Nat)
  | [] => none
  | n :: rest => decStrings n rest

/-- Modelled from the spec: `proto.Marshal` of a `BackfillInternal` record —
a deterministic binary encoding of the (possibly nil) backfill and the
ticket-id list. -/
def marshal (bi : BackfillInternal) : List Nat :=
  (match bi.backfill with
   | none => [0]
   | some b => 1 :: (encString b.id ++ encInt b.generation)) ++
    encStringList bi.ticketIds

/-- Modelled from the spec: `proto.Unmarshal` of a `BackfillInternal` record;
fails on bytes that are not a complete encoding. -/
def unmarshal (bytes : List Nat) : Option BackfillInternal :=
  match bytes with
  | 0 :: rest =>
    (match decStringList rest with
     | some (tids, []) => some ⟨none, tids⟩
     | _ => none)
  | 1 :: rest =>
    (match decString rest with
     | none => none
     | some (id, r) =>
       match decInt r with
       | none => none
       | some (gen, r₁) =>
         match decStringList r₁ with
         | some (tids, []) => some ⟨some ⟨id, gen⟩, tids⟩
         | _ => none)
  | _ => none

/-! ## Decimal formatting and parsing

`IndexBackfill` stores the generation as the decimal string the Redis client
writes for an `int64` argument, and `GetIndexedBackfills` parses it back with
`strconv.Atoi`.  Both are library code outside this repository, so they are
modelled here: `intToString` is ordinary decimal formatting, `atoi` accepts an
optional sign followed by one or more decimal digits (the 64-bit range check
of `strconv.Atoi` is immaterial for values the store itself wrote and is not
modelled). -/

/-- Little-endian decimal digits of `n`, with explicit fuel (the fuel is the
number itself, which bounds the digit count). -/
def natToDigitsRevFuel : Nat → Nat → List Nat
  | 0, _ => []
  | _ + 1, 0 => []
  | fuel + 1, n + 1 => (n + 1) % 10 :: natToDigitsRevFuel fuel ((n + 1) / 10)

/-- Little-endian decimal digits of `n` (empty for 0). -/
def natToDigitsRev (n : Nat) : List Nat :=
  natToDigitsRevFuel n n

/-- Value of a little-endian digit list. -/
def ofDigitsRev : List Nat → Nat
  | [] => 0
  | d :: t => d + 10 * ofDigitsRev t

/-- Value of a big-endian digit list. -/
def digitsToNat (l : List Nat) : Nat :=
  l.foldl (fun a d => a * 10 + d) 0

/-- The character for decimal digit `d`. -/
def digitChar (d : Nat) : Char :=
  Char.ofNat (48 + d)

/-- The decimal value of a digit character. -/
def digitVal (c : Char) : Nat :=
  c.toNat - 48

/-- Whether `c` is a decimal digit. -/
def isDigit (c : Char) : Bool :=
  decide (48 ≤ c.toNat) && decide (c.toNat ≤ 57)

/-- Modelled from the spec: decimal formatting of a natural number, as the
Redis client performs on an integer command argument. -/
def natToString (n : Nat) : String :=
  if n = 0 then "0" else ⟨((natToDigitsRev n).reverse.map digitChar)⟩

/-- Modelled from the spec: decimal formatting of an `int64` command
argument (minus sign followed by the magnitude when negative). -/
def intToString (i : Int) : String :=
  if i < 0 then "-" ++ natToString i.natAbs else natToString i.toNat

/-- Parse a nonempty all-digit character list. -/
def parseDigits (ds : List Char) : Option Nat :=
  if !ds.isEmpty && ds.all isDigit then
    some (digitsToNat (ds.map digitVal))
  else none

/-- Character-list worker for `atoi`. -/
def atoiChars : List Char → Option Int
  | [] => none
  | c :: ds =>
    if c = '-' then (parseDigits ds).map (fun n => -(n : Int))
    else if c = '+' then (parseDigits ds).map (fun n => (n : Int))
    else (parseDigits (c :: ds)).map (fun n => (n : Int))

/-- Modelled from the spec: `strconv.Atoi` — an optional sign followed by
one or more decimal digits; anything else is a parse error. -/
def atoi (s : String) : Option Int :=
  atoiChars s.data

/-! ## Errors and the store operations -/

/-- The gRPC status codes the backfill store returns. -/
inductive StoreError where
  | unavailable : StoreError
  | internal : StoreError
  | alreadyExists (id : String) : StoreError
  | notFound (id : String) : StoreError
deriving DecidableEq, Repr

/-- `acknowledgeBackfill(conn, backfillID)`: `ZADD` the current time as the
member's score.  `currentTime` stands for `time.Now().UnixNano()`. -/
def acknowledgeBackfill (st : RedisState) (backfillID : String)
    (currentTime : Int) (zaddFails : Bool) : RedisState × Option StoreError :=
  if zaddFails then (st, some .internal)
  else (rZADD st currentTime backfillID, none)

/-- `CreateBackfill`: marshal the record, `SETNX` it under the backfill's id
(`AlreadyExists` when the reply is 0), then acknowledge the fresh backfill.
`proto.Marshal` of this message is total in the model, so its error branch
has no fault flag. -/
def CreateBackfill (st : RedisState) (backfill : Option Backfill)
    (ticketIDs : List String) (now : Int)
    (connFails setnxFails zaddFails : Bool) : RedisState × Option StoreError :=
  if connFails then (st, some .unavailable)
  else
    let value := marshal ⟨backfill, ticketIDs⟩
    if setnxFails then (st, some .internal)
    else
      match rSETNX st (getId backfill) value with
      | (st₁, res) =>
        if res = 0 then (st₁, some (.alreadyExists (getId backfill)))
        else acknowledgeBackfill st₁ (getId backfill) now zaddFails

/-- `GetBackfill`: `GET` the bytes (`NotFound` when absent), unmarshal
(`Internal` on decode failure), and return the backfill with its ticket ids.
Mirrors the Go triple `(*pb.Backfill, []string, error)`. -/
def GetBackfill (st : RedisState) (id : String) (connFails getFails : Bool) :
    Option Backfill × List String × Option StoreError :=
  if connFails then (none, [], some .unavailable)
  else if getFails then (none, [], some .internal)
  else
    match rGET st id with
    | none => (none, [], some (.notFound id))
    | some value =>
      match unmarshal value with
      | none => (none, [], some .internal)
      | some bi => (bi.backfill, bi.ticketIds, none)

/-- `deleteExpiredBackfillID`: `ZREM` the id from the ack sorted set. -/
def deleteExpiredBackfillID (st : RedisState) (backfillID : String)
    (zremFails : Bool) : RedisState × Option StoreError :=
  if zremFails then (st, some .internal)
  else (rZREM st backfillID, none)

/-- `DeleteBackfill`: unconditional `DEL` of the record key, then removal of
the id from the ack sorted set.  The `allBackfills` hash is not touched. -/
def DeleteBackfill (st : RedisState) (id : String)
    (connFails delFails zremFails : Bool) : RedisState × Option StoreError :=
  if connFails then (st, some .unavailable)
  else if delFails then (st, some .internal)
  else deleteExpiredBackfillID (rDEL st id) id zremFails

/-- `UpdateBackfill`: marshal and unconditionally `SET`. -/
def UpdateBackfill (st : RedisState) (backfill : Option Backfill)
    (ticketIDs : List String) (connFails setFails : Bool) :
    RedisState × Option StoreError :=
  if connFails then (st, some .unavailable)
  else if setFails then (st, some .internal)
  else (rSET st (getId backfill) (marshal ⟨backfill, ticketIDs⟩), none)

/-- `AcknowledgeBackfill` (exported): acknowledge without any existence
check. -/
def AcknowledgeBackfill (st : RedisState) (id : String) (now : Int)
    (connFails zaddFails : Bool) : RedisState × Option StoreError :=
  if connFails then (st, some .unavailable)
  else acknowledgeBackfill st id now zaddFails

/-- The TTL `GetExpiredBackfillIDs` computes from the configured
`pendingReleaseTimeout`: `timeout / 5 * 4` in Go's truncating integer
division on `time.Duration`. -/
def backfillTTL (pendingReleaseTimeout : Int) : Int :=
  pendingReleaseTimeout.tdiv 5 * 4

/-- `GetExpiredBackfillIDs`: `ZRANGEBYSCORE` of the ack sorted set over
`[0, now - ttl]`, with `ttl = pendingReleaseTimeout / 5 * 4`. -/
def GetExpiredBackfillIDs (st : RedisState)
    (pendingReleaseTimeout now : Int) (connFails zrangeFails : Bool) :
    List String × Option StoreError :=
  if connFails then ([], some .unavailable)
  else
    let ttl := backfillTTL pendingReleaseTimeout
    let endTimeInt := now - ttl
    let startTimeInt : Int := 0
    if zrangeFails then ([], some .internal)
    else (rZRANGEBYSCORE st startTimeInt endTimeInt, none)

/-- `IndexBackfill`: `Send("HSET", allBackfills, id, generation)` — the
command is only buffered; `sendFails` is a buffering failure (surfaced as
`Internal`), while `execFails` is the engine-side outcome of the buffered
command, whose reply the Go code never reads. -/
def IndexBackfill (st : RedisState) (backfill : Backfill)
    (connFails sendFails execFails : Bool) : RedisState × Option StoreError :=
  if connFails then (st, some .unavailable)
  else if sendFails then (st, some .internal)
  else if execFails then (st, none)
  else (rHSET st backfill.id (intToString backfill.generation), none)

/-- `DeindexBackfill`: `Send("HDEL", allBackfills, id)`, buffered exactly as
in `IndexBackfill`. -/
def DeindexBackfill (st : RedisState) (id : String)
    (connFails sendFails execFails : Bool) : RedisState × Option StoreError :=
  if connFails then (st, some .unavailable)
  else if sendFails then (st, some .internal)
  else if execFails then (st, none)
  else (rHDEL st id, none)

/-- Parse every generation value of the hash contents with `atoi`,
failing as a whole on the first value that is not a valid integer. -/
def parseGenerations : List (String × String) → Option (List (String × Int))
  | [] => some []
  | (id, g) :: t =>
    match atoi g with
    | none => none
    | some gen =>
      match parseGenerations t with
      | none => none
      | some r => some ((id, gen) :: r)

/-- `GetIndexedBackfills`: `HGETALL` of `allBackfills`, decoding every value
to an integer generation; any invalid value fails the whole read with
`Internal` (the Go code returns a nil map then, hence the `Option`). -/
def GetIndexedBackfills (st : RedisState) (connFails hgetallFails : Bool) :
    Option (List (String × Int)) × Option StoreError :=
  if connFails then (none, some .unavailable)
  else if hgetallFails then (none, some .internal)
  else
    match parseGenerations (rHGETALL st) with
    | none => (none, some .internal)
    | some r => (some r, none)

/-- Follows the spec's words (§4.1 ListExpiredIDs): the ids acknowledged in
`[0, now - ttl]` for a caller-supplied `ttl` — used to compare the code's
behavior against the spec's caller-supplied-ttl signature. -/
def specListExpiredIDs (st : RedisState) (now ttl : Int) : List String :=
  rZRANGEBYSCORE st 0 (now - ttl)

/-! ## Association-list lemmas -/

theorem alLookup_alInsert_self {α : Type} (k : String) (v : α)
    (l : List (String × α)) : alLookup k (alInsert k v l) = some v := by
  simp [alInsert, alLookup]

theorem alLookup_alErase_self {α : Type} (k : String) (l : List (String × α)) :
    alLookup k (alErase k l) = none := by
  induction l with
  | nil => rfl
  | cons p t ih =>
    obtain ⟨k₁, v⟩ := p
    by_cases h : k₁ = k <;> simp [alErase, alLookup, h, ih]

theorem alLookup_alErase_ne {α : Type} {k k₁ : String} (l : List (String × α))
    (h : k₁ ≠ k) : alLookup k₁ (alErase k l) = alLookup k₁ l := by
  induction l with
  | nil => rfl
  | cons p t ih =>
    obtain ⟨k₂, v⟩ := p
    by_cases h₂ : k₂ = k
    · subst h₂
      simp [alErase, alLookup, Ne.symm h, ih]
    · by_cases h₃ : k₂ = k₁ <;> simp [alErase, alLookup, h₂, h₃, h, ih]

theorem mem_alErase {α : Type} {k k₁ : String} {v : α}
    {l : List (String × α)} :
    (k₁, v) ∈ alErase k l ↔ (k₁, v) ∈ l ∧ k₁ ≠ k := by
  induction l with
  | nil => simp [alErase]
  | cons p t ih =>
    obtain ⟨k₂, w⟩ := p
    by_cases h : k₂ = k
    · subst h
      rw [show alErase k₂ ((k₂, w) :: t) = alErase k₂ t from by simp [alErase]]
      rw [ih]
      simp only [List.mem_cons]
      constructor
      · rintro ⟨hm, hne⟩
        exact ⟨Or.inr hm, hne⟩
      · rintro ⟨hp | hm, hne⟩
        · exact absurd (congrArg Prod.fst hp) hne
        · exact ⟨hm, hne⟩
    · rw [show alErase k ((k₂, w) :: t) = (k₂, w) :: alErase k t from by
        simp [alErase, h]]
      simp only [List.mem_cons, ih]
      constructor
      · rintro (hp | ⟨hm, hne⟩)
        · injection hp with h₁ h₂
          subst h₁
          subst h₂
          exact ⟨Or.inl rfl, h⟩
        · exact ⟨Or.inr hm, hne⟩
      · rintro ⟨hp | hm, hne⟩
        · exact Or.inl hp
        · exact Or.inr ⟨hm, hne⟩

/-! ## Serialization round trip -/

theorem map_ofNat_toNat (l : List Char) :
    (l.map Char.toNat).map Char.ofNat = l := by
  induction l with
  | nil => rfl
  | cons c t ih => simp [ih, Char.ofNat_toNat]

theorem decString_encString (s : String) (r : List Nat) :
    decString (encString s ++ r) = some (s, r) := by
  obtain ⟨l⟩ := s
  have hlen : (l.map Char.toNat).length = l.length := List.length_map l Char.toNat
  have hle : l.length ≤ (l.map Char.toNat ++ r).length := by
    simp [List.length_append, hlen]
  show decString (l.length :: (l.map Char.toNat ++ r)) = some (⟨l⟩, r)
  rw [decString, if_pos hle, List.take_left' hlen, List.drop_left' hlen,
    map_ofNat_toNat]

theorem decInt_encInt (i : Int) (r : List Nat) :
    decInt (encInt i ++ r) = some (i, r) := by
  by_cases h : 0 ≤ i
  · have hi : (i.toNat : Int) = i := Int.toNat_of_nonneg h
    simp [encInt, h, decInt, hi]
  · have hi : (-(i.natAbs : Int)) = i := by omega
    simp only [encInt, if_neg h, List.cons_append, List.nil_append, decInt, hi]

theorem decStrings_encStrings (l : List String) (r : List Nat) :
    decStrings l.length (encStrings l ++ r) = some (l, r) := by
  induction l generalizing r with
  | nil => simp [encStrings, decStrings]
  | cons s t ih =>
    simp only [List.length_cons, encStrings, List.append_assoc, decStrings,
      decString_encString, ih]

theorem decStringList_encStringList (l : List String) :
    decStringList (encStringList l) = some (l, []) := by
  have h := decStrings_encStrings l []
  rw [List.append_nil] at h
  simp [encStringList, decStringList, h]

/-- Deserializing a serialized record yields the record back. -/
theorem unmarshal_marshal (bi : BackfillInternal) :
    unmarshal (marshal bi) = some bi := by
  obtain ⟨bf, tids⟩ := bi
  cases bf with
  | none => simp [marshal, unmarshal, decStringList_encStringList]
  | some b =>
    obtain ⟨id, gen⟩ := b
    simp only [marshal, List.cons_append, List.append_assoc, unmarshal,
      decString_encString, decInt_encInt, decStringList_encStringList]

/-! ## Decimal formatting round trip -/

theorem ofDigitsRev_natToDigitsRevFuel (fuel n : Nat) (h : n ≤ fuel) :
    ofDigitsRev (natToDigitsRevFuel fuel n) = n := by
  induction fuel generalizing n with
  | zero =>
    have hn : n = 0 := Nat.le_zero.mp h
    subst hn
    rfl
  | succ f ih =>
    cases n with
    | zero => rfl
    | succ m =>
      have hdiv : (m + 1) / 10 ≤ f := by
        have := Nat.div_lt_self (Nat.succ_pos m) (by decide : 1 < 10)
        omega
      simp only [natToDigitsRevFuel, ofDigitsRev, ih _ hdiv]
      omega

theorem ofDigitsRev_natToDigitsRev (n : Nat) :
    ofDigitsRev (natToDigitsRev n) = n :=
  ofDigitsRev_natToDigitsRevFuel n n le_rfl

theorem natToDigitsRevFuel_lt_ten (fuel n : Nat) :
    ∀ d ∈ natToDigitsRevFuel fuel n, d < 10 := by
  induction fuel generalizing n with
  | zero =>
    intro d hd
    simp [natToDigitsRevFuel] at hd
  | succ f ih =>
    cases n with
    | zero =>
      intro d hd
      simp [natToDigitsRevFuel] at hd
    | succ m =>
      intro d hd
      simp only [natToDigitsRevFuel, List.mem_cons] at hd
      rcases hd with rfl | hd
      · exact Nat.mod_lt _ (by decide)
      · exact ih _ d hd

theorem digitsToNat_reverse (l : List Nat) :
    digitsToNat l.reverse = ofDigitsRev l := by
  induction l with
  | nil => rfl
  | cons d t ih =>
    simp only [digitsToNat] at ih
    simp only [digitsToNat, List.reverse_cons, List.foldl_append, List.foldl_cons,
      List.foldl_nil, ofDigitsRev, ih]
    omega

theorem digitVal_digitChar {d : Nat} (h : d < 10) :
    digitVal (digitChar d) = d := by
  interval_cases d <;> decide

theorem isDigit_digitChar {d : Nat} (h : d < 10) :
    isDigit (digitChar d) = true := by
  interval_cases d <;> decide

theorem map_digitVal_digitChar (l : List Nat) (hlt : ∀ d ∈ l, d < 10) :
    (l.map digitChar).map digitVal = l := by
  induction l with
  | nil => rfl
  | cons d t ih =>
    have h₁ := hlt d (List.mem_cons_self d t)
    have h₂ : ∀ x ∈ t, x < 10 := fun x hx => hlt x (List.mem_cons_of_mem d hx)
    simp [ih h₂, digitVal_digitChar h₁]

theorem parseDigits_map_digitChar {l : List Nat} (hne : l ≠ [])
    (hlt : ∀ d ∈ l, d < 10) :
    parseDigits (l.map digitChar) = some (digitsToNat l) := by
  have hall : (l.map digitChar).all isDigit = true := by
    simp only [List.all_eq_true, List.mem_map]
    rintro c ⟨d, hd, rfl⟩
    exact isDigit_digitChar (hlt d hd)
  have hne₂ : (l.map digitChar).isEmpty = false := by
    cases l with
    | nil => exact absurd rfl hne
    | cons a t => rfl
  rw [parseDigits, if_pos (by rw [hne₂, hall]; rfl)]
  rw [map_digitVal_digitChar l hlt]

theorem parseDigits_natToString (n : Nat) :
    parseDigits (natToString n).data = some n := by
  by_cases h : n = 0
  · subst h
    decide
  · have hlt : ∀ d ∈ (natToDigitsRev n).reverse, d < 10 := fun d hd =>
      natToDigitsRevFuel_lt_ten n n d (List.mem_reverse.mp hd)
    have hne : (natToDigitsRev n).reverse ≠ [] := by
      cases n with
      | zero => exact absurd rfl h
      | succ m =>
        simp [natToDigitsRev, natToDigitsRevFuel]
    rw [natToString, if_neg h]
    show parseDigits ((natToDigitsRev n).reverse.map digitChar) = some n
    rw [parseDigits_map_digitChar hne hlt, digitsToNat_reverse,
      ofDigitsRev_natToDigitsRev n]

theorem natToString_head_isDigit (n : Nat) :
    ∃ c ds, (natToString n).data = c :: ds ∧ isDigit c = true := by
  by_cases h : n = 0
  · subst h
    exact ⟨'0', [], rfl, by decide⟩
  · have hne : (natToDigitsRev n).reverse ≠ [] := by
      cases n with
      | zero => exact absurd rfl h
      | succ m =>
        simp [natToDigitsRev, natToDigitsRevFuel]
    obtain ⟨d, t, hdt⟩ : ∃ d t, (natToDigitsRev n).reverse = d :: t := by
      cases hrl : (natToDigitsRev n).reverse with
      | nil => exact absurd hrl hne
      | cons d t => exact ⟨d, t, rfl⟩
    have hd10 : d < 10 :=
      natToDigitsRevFuel_lt_ten n n d (List.mem_reverse.mp (hdt ▸ List.mem_cons_self d t))
    refine ⟨digitChar d, t.map digitChar, ?_, isDigit_digitChar hd10⟩
    rw [natToString, if_neg h]
    show ((natToDigitsRev n).reverse.map digitChar) = digitChar d :: t.map digitChar
    rw [hdt, List.map_cons]

theorem atoi_natToString (n : Nat) : atoi (natToString n) = some (n : Int) := by
  obtain ⟨c, ds, hdata, hdig⟩ := natToString_head_isDigit n
  have h₁ : c ≠ '-' := by
    intro hc
    subst hc
    exact absurd hdig (by decide)
  have h₂ : c ≠ '+' := by
    intro hc
    subst hc
    exact absurd hdig (by decide)
  have hp : parseDigits (c :: ds) = some n := by
    rw [← hdata]
    exact parseDigits_natToString n
  rw [show atoi (natToString n) = atoiChars (natToString n).data from rfl, hdata]
  simp [atoiChars, h₁, h₂, hp]

/-- Parsing the decimal rendering of an integer recovers the integer. -/
theorem atoi_intToString (i : Int) : atoi (intToString i) = some i := by
  by_cases h : i < 0
  · rw [intToString, if_pos h]
    have habs : (-(i.natAbs : Int)) = i := by omega
    have hdata : ("-" ++ natToString i.natAbs).data =
        '-' :: (natToString i.natAbs).data := by
      rw [String.data_append]
      rfl
    rw [show atoi ("-" ++ natToString i.natAbs) =
        atoiChars ("-" ++ natToString i.natAbs).data from rfl, hdata]
    have hbranch : atoiChars ('-' :: (natToString i.natAbs).data) =
        (parseDigits (natToString i.natAbs).data).map (fun n => -(n : Int)) := by
      simp [atoiChars]
    rw [hbranch, parseDigits_natToString]
    show some (-((i.natAbs : Nat) : Int)) = some i
    rw [habs]
  · rw [intToString, if_neg h]
    have hi : ((i.toNat : Nat) : Int) = i := by omega
    rw [atoi_natToString, hi]

/-- Membership in a `ZRANGEBYSCORE` reply is exactly "some binding of the id
has a score in the closed interval". -/
theorem mem_rZRANGEBYSCORE {st : RedisState} {lo hi : Int} {id : String} :
    id ∈ rZRANGEBYSCORE st lo hi ↔
      ∃ s, (id, s) ∈ st.ack ∧ lo ≤ s ∧ s ≤ hi := by
  simp only [rZRANGEBYSCORE, List.mem_map, List.mem_filter, decide_eq_true_eq]
  constructor
  · rintro ⟨⟨k, s⟩, ⟨hm, h₁, h₂⟩, rfl⟩
    exact ⟨s, hm, h₁, h₂⟩
  · rintro ⟨s, hm, h₁, h₂⟩
    exact ⟨(id, s), ⟨hm, h₁, h₂⟩, rfl⟩

/-! ## Operation-level helper lemmas -/

theorem createBackfill_ack_of_absent (st : RedisState)
    (backfill : Option Backfill) (ticketIDs : List String) (now : Int)
    (h : alLookup (getId backfill) st.kv = none) :
    (CreateBackfill st backfill ticketIDs now false false false).1.ack =
      alInsert (getId backfill) now st.ack := by
  simp [CreateBackfill, rSETNX, h, acknowledgeBackfill, rZADD]

theorem getExpired_fst (st : RedisState) (prt now : Int) :
    (GetExpiredBackfillIDs st prt now false false).1 =
      rZRANGEBYSCORE st 0 (now - backfillTTL prt) := by
  simp [GetExpiredBackfillIDs]

/-! ## Claims -/

/-- C1: `CreateBackfill` stores the serialized record under the backfill's id
only if no value is already stored under that key, and fails with
`AlreadyExists(id)` exactly when a value for that key already exists, leaving
the store's state unchanged in that failure case. -/
theorem createBackfill_setIfNotExists (st : RedisState)
    (backfill : Option Backfill) (ticketIDs : List String) (now : Int) :
    ((∃ v, alLookup (getId backfill) st.kv = some v) ↔
      CreateBackfill st backfill ticketIDs now false false false =
        (st, some (.alreadyExists (getId backfill)))) ∧
    (alLookup (getId backfill) st.kv = none →
      (CreateBackfill st backfill ticketIDs now false false false).1.kv =
        alInsert (getId backfill) (marshal ⟨backfill, ticketIDs⟩) st.kv ∧
      (CreateBackfill st backfill ticketIDs now false false false).2 = none) := by
  by_cases h : ∃ v, alLookup (getId backfill) st.kv = some v
  · obtain ⟨v, hv⟩ := h
    refine ⟨⟨fun _ => ?_, fun _ => ⟨v, hv⟩⟩, fun hnone => ?_⟩
    · simp [CreateBackfill, rSETNX, hv]
    · rw [hnone] at hv
      cases hv
  · have hnone : alLookup (getId backfill) st.kv = none := by
      cases hl : alLookup (getId backfill) st.kv with
      | none => rfl
      | some v => exact absurd ⟨v, hl⟩ h
    refine ⟨⟨fun hex => absurd hex h, fun heq => ?_⟩, fun _ => ?_⟩
    · exfalso
      have h₂ : (CreateBackfill st backfill ticketIDs now false false false).2 =
          some (.alreadyExists (getId backfill)) := by rw [heq]
      rw [show (CreateBackfill st backfill ticketIDs now false false false).2 =
          none from by
        simp [CreateBackfill, rSETNX, hnone, acknowledgeBackfill]] at h₂
      cases h₂
    · constructor
      · simp [CreateBackfill, rSETNX, hnone, acknowledgeBackfill, rZADD]
      · simp [CreateBackfill, rSETNX, hnone, acknowledgeBackfill]

/-- Witness for C1: in a store holding key `b1`, a create of `b1` fails with
`AlreadyExists` and leaves the state unchanged; in an empty store, the create
stores the serialized record. -/
theorem createBackfill_setIfNotExists_witness :
    CreateBackfill ⟨[("b1", [2, 99])], [], []⟩ (some ⟨"b1", 0⟩) [] 5
        false false false =
      (⟨[("b1", [2, 99])], [], []⟩, some (.alreadyExists "b1")) ∧
    alLookup (getId (some ⟨"b1", 0⟩))
      (CreateBackfill ⟨[], [], []⟩ (some ⟨"b1", 0⟩) ["t"] 5
        false false false).1.kv =
      some (marshal ⟨some ⟨"b1", 0⟩, ["t"]⟩) := by
  constructor
  · exact (createBackfill_setIfNotExists ⟨[("b1", [2, 99])], [], []⟩
      (some ⟨"b1", 0⟩) [] 5).1.mp ⟨[2, 99], rfl⟩
  · have h := (createBackfill_setIfNotExists ⟨[], [], []⟩
      (some ⟨"b1", 0⟩) ["t"] 5).2 rfl
    rw [h.1, alLookup_alInsert_self]

/-- C2: a successful `CreateBackfill(B, T)` followed by `GetBackfill(B.id)`
returns exactly `(B, T)` — the serialize-then-deserialize round trip through
the stored record is the identity on the pair. -/
theorem createBackfill_getBackfill_roundTrip (st : RedisState)
    (backfill : Option Backfill) (ticketIDs : List String) (now : Int)
    (h : (CreateBackfill st backfill ticketIDs now false false false).2 = none) :
    GetBackfill (CreateBackfill st backfill ticketIDs now false false false).1
      (getId backfill) false false = (backfill, ticketIDs, none) := by
  have hnone : alLookup (getId backfill) st.kv = none := by
    cases hl : alLookup (getId backfill) st.kv with
    | none => rfl
    | some v =>
      rw [show (CreateBackfill st backfill ticketIDs now false false false).2 =
          some (.alreadyExists (getId backfill)) from by
        simp [CreateBackfill, rSETNX, hl]] at h
      cases h
  simp [GetBackfill, rGET, CreateBackfill, rSETNX, hnone, acknowledgeBackfill,
    rZADD, alLookup_alInsert_self, unmarshal_marshal]

/-- Witness for C2: a concrete create in the empty store succeeds and the
following get returns the created backfill and ticket ids. -/
theorem createBackfill_getBackfill_roundTrip_witness :
    (CreateBackfill ⟨[], [], []⟩ (some ⟨"b1", 3⟩) ["t1", "t2"] 7
      false false false).2 = none ∧
    GetBackfill (CreateBackfill ⟨[], [], []⟩ (some ⟨"b1", 3⟩) ["t1", "t2"] 7
        false false false).1 (getId (some ⟨"b1", 3⟩)) false false =
      (some ⟨"b1", 3⟩, ["t1", "t2"], none) :=
  ⟨by decide,
    createBackfill_getBackfill_roundTrip ⟨[], [], []⟩ (some ⟨"b1", 3⟩)
      ["t1", "t2"] 7 (by decide)⟩

/-- C9: `CreateBackfill` is not atomic across its two storage commands — if
the `SETNX` succeeds but the acknowledgement `ZADD` fails, the call returns
`Internal` while the record is already stored under the id and the ack
sorted set is untouched. -/
theorem createBackfill_partialFailure (st : RedisState)
    (backfill : Option Backfill) (ticketIDs : List String) (now : Int)
    (h : alLookup (getId backfill) st.kv = none) :
    (CreateBackfill st backfill ticketIDs now false false true).2 =
      some .internal ∧
    alLookup (getId backfill)
      (CreateBackfill st backfill ticketIDs now false false true).1.kv =
      some (marshal ⟨backfill, ticketIDs⟩) ∧
    (CreateBackfill st backfill ticketIDs now false false true).1.ack =
      st.ack := by
  refine ⟨?_, ?_, ?_⟩ <;>
    simp [CreateBackfill, rSETNX, h, acknowledgeBackfill, alLookup_alInsert_self]

/-- Witness for C9: in the empty store, a create whose `ZADD` fails returns
`Internal`, yet the record is stored and no ack entry exists. -/
theorem createBackfill_partialFailure_witness :
    alLookup (getId (some ⟨"b9", 0⟩)) (⟨[], [], []⟩ : RedisState).kv = none ∧
    ((CreateBackfill ⟨[], [], []⟩ (some ⟨"b9", 0⟩) [] 3 false false true).2 =
        some .internal ∧
      alLookup (getId (some ⟨"b9", 0⟩))
        (CreateBackfill ⟨[], [], []⟩ (some ⟨"b9", 0⟩) [] 3
          false false true).1.kv =
        some (marshal ⟨some ⟨"b9", 0⟩, []⟩) ∧
      (CreateBackfill ⟨[], [], []⟩ (some ⟨"b9", 0⟩) [] 3
        false false true).1.ack = ([] : List (String × Int))) :=
  ⟨rfl, createBackfill_partialFailure ⟨[], [], []⟩ (some ⟨"b9", 0⟩) [] 3 rfl⟩

/-- C3: a successful create at time `t0` records an acknowledgement with
timestamp `t0` in the ack sorted set, so the expiry scan with
`now = t0 + ttl + 1` includes the id, while a subsequent acknowledgement at
`t0 + ttl/2` raises the score so the same scan excludes it (for any
nondegenerate ttl with `ttl/2 ≥ 2` nanoseconds). -/
theorem createAckExpire (st : RedisState) (backfill : Option Backfill)
    (ticketIDs : List String) (t0 prt : Int)
    (hc : (CreateBackfill st backfill ticketIDs t0 false false false).2 = none)
    (ht0 : 0 ≤ t0) (httl : 2 ≤ (backfillTTL prt).tdiv 2) :
    alLookup (getId backfill)
      (CreateBackfill st backfill ticketIDs t0 false false false).1.ack =
      some t0 ∧
    getId backfill ∈
      (GetExpiredBackfillIDs
        (CreateBackfill st backfill ticketIDs t0 false false false).1
        prt (t0 + backfillTTL prt + 1) false false).1 ∧
    getId backfill ∉
      (GetExpiredBackfillIDs
        (AcknowledgeBackfill
          (CreateBackfill st backfill ticketIDs t0 false false false).1
          (getId backfill) (t0 + (backfillTTL prt).tdiv 2) false false).1
        prt (t0 + backfillTTL prt + 1) false false).1 := by
  have hnone : alLookup (getId backfill) st.kv = none := by
    cases hl : alLookup (getId backfill) st.kv with
    | none => rfl
    | some v =>
      rw [show (CreateBackfill st backfill ticketIDs t0 false false false).2 =
          some (.alreadyExists (getId backfill)) from by
        simp [CreateBackfill, rSETNX, hl]] at hc
      cases hc
  have hack := createBackfill_ack_of_absent st backfill ticketIDs t0 hnone
  refine ⟨?_, ?_, ?_⟩
  · rw [hack, alLookup_alInsert_self]
  · rw [getExpired_fst]
    refine mem_rZRANGEBYSCORE.mpr ⟨t0, ?_, ht0, by omega⟩
    rw [hack, alInsert]
    exact List.mem_cons_self _ _
  · rw [getExpired_fst]
    intro hmem
    obtain ⟨sc, hmm, h0, hhi⟩ := mem_rZRANGEBYSCORE.mp hmem
    rw [show (AcknowledgeBackfill
        (CreateBackfill st backfill ticketIDs t0 false false false).1
        (getId backfill) (t0 + (backfillTTL prt).tdiv 2) false false).1.ack =
        alInsert (getId backfill) (t0 + (backfillTTL prt).tdiv 2)
          (CreateBackfill st backfill ticketIDs t0 false false false).1.ack
        from by
      simp [AcknowledgeBackfill, acknowledgeBackfill, rZADD]] at hmm
    rw [alInsert] at hmm
    rcases List.mem_cons.mp hmm with heq | hmem₂
    · have hsc : sc = t0 + (backfillTTL prt).tdiv 2 := congrArg Prod.snd heq
      omega
    · exact (mem_alErase.mp hmem₂).2 rfl

/-- Witness for C3 at `t0 = 50`, `pendingReleaseTimeout = 10` (so `ttl = 8`):
the freshly created id is scored 50 and expired at `now = 59`; after an
acknowledgement at 54 it no longer is. -/
theorem createAckExpire_witness :
    (CreateBackfill ⟨[], [], []⟩ (some ⟨"b3", 0⟩) [] 50 false false false).2 =
      none ∧
    (0 : Int) ≤ 50 ∧
    (2 : Int) ≤ (backfillTTL 10).tdiv 2 ∧
    (alLookup (getId (some ⟨"b3", 0⟩))
        (CreateBackfill ⟨[], [], []⟩ (some ⟨"b3", 0⟩) [] 50
          false false false).1.ack = some 50 ∧
      getId (some ⟨"b3", 0⟩) ∈
        (GetExpiredBackfillIDs
          (CreateBackfill ⟨[], [], []⟩ (some ⟨"b3", 0⟩) [] 50
            false false false).1
          10 (50 + backfillTTL 10 + 1) false false).1 ∧
      getId (some ⟨"b3", 0⟩) ∉
        (GetExpiredBackfillIDs
          (AcknowledgeBackfill
            (CreateBackfill ⟨[], [], []⟩ (some ⟨"b3", 0⟩) [] 50
              false false false).1
            (getId (some ⟨"b3", 0⟩)) (50 + (backfillTTL 10).tdiv 2)
            false false).1
          10 (50 + backfillTTL 10 + 1) false false).1) :=
  ⟨by decide, by decide, by decide,
    createAckExpire ⟨[], [], []⟩ (some ⟨"b3", 0⟩) [] 50 10 (by decide)
      (by decide) (by decide)⟩

/-- C4: the expiry scan returns, without error, exactly the ids whose
acknowledgement score lies in the closed interval `[0, now - ttl]`,
inclusive at both boundaries; an empty result is still `(list, no error)`,
never `NotFound`. -/
theorem getExpiredBackfillIDs_range (st : RedisState) (prt now : Int) :
    (GetExpiredBackfillIDs st prt now false false).2 = none ∧
    ∀ id, id ∈ (GetExpiredBackfillIDs st prt now false false).1 ↔
      ∃ s, (id, s) ∈ st.ack ∧ 0 ≤ s ∧ s ≤ now - backfillTTL prt := by
  constructor
  · simp [GetExpiredBackfillIDs]
  · intro id
    rw [getExpired_fst]
    exact mem_rZRANGEBYSCORE

/-- C5: `DeleteBackfill` returns no error even when no record exists; it
removes both the stored record and the id's ack entry, so a subsequent
`GetBackfill` fails with `NotFound`. -/
theorem deleteBackfill_idempotent (st : RedisState) (id : String) :
    (DeleteBackfill st id false false false).2 = none ∧
    alLookup id (DeleteBackfill st id false false false).1.kv = none ∧
    alLookup id (DeleteBackfill st id false false false).1.ack = none ∧
    GetBackfill (DeleteBackfill st id false false false).1 id false false =
      (none, [], some (.notFound id)) := by
  have hkv : (DeleteBackfill st id false false false).1.kv =
      alErase id st.kv := by
    simp [DeleteBackfill, deleteExpiredBackfillID, rDEL, rZREM]
  refine ⟨?_, ?_, ?_, ?_⟩
  · simp [DeleteBackfill, deleteExpiredBackfillID]
  · rw [hkv, alLookup_alErase_self]
  · simp [DeleteBackfill, deleteExpiredBackfillID, rDEL, rZREM,
      alLookup_alErase_self]
  · simp [GetBackfill, rGET, hkv, alLookup_alErase_self]

/-- C6: `DeleteBackfill` leaves the `allBackfills` hash untouched — after
`IndexBackfill(B)` then `DeleteBackfill(B.id)`, the get fails with
`NotFound` while the index read (whenever it succeeds) still maps `B.id`
to `B`'s generation. -/
theorem deleteBackfill_keepsActiveIndex (st : RedisState) (b : Backfill) :
    (DeleteBackfill (IndexBackfill st b false false false).1 b.id
        false false false).1.index =
      (IndexBackfill st b false false false).1.index ∧
    GetBackfill (DeleteBackfill (IndexBackfill st b false false false).1 b.id
        false false false).1 b.id false false =
      (none, [], some (.notFound b.id)) ∧
    ∀ m, GetIndexedBackfills
        (DeleteBackfill (IndexBackfill st b false false false).1 b.id
          false false false).1 false false = (some m, none) →
      alLookup b.id m = some b.generation := by
  have hidx : (DeleteBackfill (IndexBackfill st b false false false).1 b.id
      false false false).1.index =
      alInsert b.id (intToString b.generation) st.index := by
    simp [DeleteBackfill, deleteExpiredBackfillID, rDEL, rZREM,
      IndexBackfill, rHSET]
  refine ⟨?_, ?_, ?_⟩
  · rw [hidx]
    simp [IndexBackfill, rHSET]
  · have hkv : (DeleteBackfill (IndexBackfill st b false false false).1 b.id
        false false false).1.kv =
        alErase b.id (IndexBackfill st b false false false).1.kv := by
      simp [DeleteBackfill, deleteExpiredBackfillID, rDEL, rZREM]
    simp [GetBackfill, rGET, hkv, alLookup_alErase_self]
  · intro m hm
    cases hp : parseGenerations (alErase b.id st.index) with
    | none =>
      rw [show GetIndexedBackfills
          (DeleteBackfill (IndexBackfill st b false false false).1 b.id
            false false false).1 false false = (none, some .internal) from by
        simp [GetIndexedBackfills, rHGETALL, hidx, alInsert, parseGenerations,
          atoi_intToString, hp]] at hm
      exact absurd (congrArg Prod.fst hm) (by simp)
    | some r =>
      rw [show GetIndexedBackfills
          (DeleteBackfill (IndexBackfill st b false false false).1 b.id
            false false false).1 false false =
          (some ((b.id, b.generation) :: r), none) from by
        simp [GetIndexedBackfills, rHGETALL, hidx, alInsert, parseGenerations,
          atoi_intToString, hp]] at hm
      have h₁ : some ((b.id, b.generation) :: r) = some m :=
        congrArg Prod.fst hm
      rw [← Option.some.inj h₁]
      simp [alLookup]

/-- Witness for C6: a concrete index-then-delete in the empty store, where
the index read succeeds and still maps the id to its generation. -/
theorem deleteBackfill_keepsActiveIndex_witness :
    GetIndexedBackfills
      (DeleteBackfill (IndexBackfill ⟨[], [], []⟩ ⟨"i1", 5⟩ false false false).1
        "i1" false false false).1 false false = (some [("i1", 5)], none) ∧
    alLookup "i1" [("i1", (5 : Int))] = some 5 :=
  ⟨by decide,
    (deleteBackfill_keepsActiveIndex ⟨[], [], []⟩ ⟨"i1", 5⟩).2.2
      [("i1", 5)] (by decide)⟩

/-- C7 counterexample: the fraction applied to the caller-configured
`pendingReleaseTimeout` is not tunable — with `pendingReleaseTimeout = 10`
and `now = 100` the code scans exactly `[0, 92]`, which is the spec-side
scan for the fixed ttl `8 = 10/5*4` and differs from the scan any other
fraction (here one half, ttl `5`) would produce. -/
theorem getExpiredTTL_fraction_fixed_cx :
    (GetExpiredBackfillIDs ⟨[], [("a", 93), ("b", 92)], []⟩ 10 100
      false false).1 = ["b"] ∧
    specListExpiredIDs ⟨[], [("a", 93), ("b", 92)], []⟩ 100 8 = ["b"] ∧
    specListExpiredIDs ⟨[], [("a", 93), ("b", 92)], []⟩ 100 5 = ["a", "b"] ∧
    backfillTTL 10 = 8 := by
  decide

/-- C7 (amended): the ttl used by the expiry scan is computed inside this
core from the caller-configured `pendingReleaseTimeout` as the fixed
fraction `4/5` of it (`timeout / 5 * 4`, truncating division); the timeout
is the tunable, the fraction is a hardcoded constant. -/
theorem getExpired_ttl_fixed_fraction (st : RedisState) (prt now : Int) :
    GetExpiredBackfillIDs st prt now false false =
      (specListExpiredIDs st now (prt.tdiv 5 * 4), none) := by
  simp [GetExpiredBackfillIDs, specListExpiredIDs, backfillTTL]

/-- `parseGenerations` succeeds on an all-valid hash and relates its output
pairs one-to-one to the hash entries. -/
theorem parseGenerations_isSome (l : List (String × String))
    (h : ∀ p ∈ l, (atoi p.2).isSome) :
    ∃ m, parseGenerations l = some m ∧
      ∀ id gen, (id, gen) ∈ m ↔ ∃ s, (id, s) ∈ l ∧ atoi s = some gen := by
  induction l with
  | nil => exact ⟨[], rfl, by simp⟩
  | cons p t ih =>
    obtain ⟨k, s⟩ := p
    obtain ⟨g, hg⟩ : ∃ g, atoi s = some g :=
      Option.isSome_iff_exists.mp (h (k, s) (List.mem_cons_self _ _))
    obtain ⟨m, hm, hiff⟩ := ih (fun q hq => h q (List.mem_cons_of_mem _ hq))
    refine ⟨(k, g) :: m, by simp [parseGenerations, hg, hm], ?_⟩
    intro id gen
    simp only [List.mem_cons]
    constructor
    · rintro (heq | hmem)
      · injection heq with h₁ h₂
        subst h₁
        subst h₂
        exact ⟨s, Or.inl rfl, hg⟩
      · obtain ⟨s₂, hs₂, hsg⟩ := (hiff id gen).mp hmem
        exact ⟨s₂, Or.inr hs₂, hsg⟩
    · rintro ⟨s₂, hs | hs, hsg⟩
      · injection hs with h₁ h₂
        subst h₁
        subst h₂
        rw [hg] at hsg
        cases Option.some.inj hsg
        exact Or.inl rfl
      · exact Or.inr ((hiff id gen).mpr ⟨s₂, hs, hsg⟩)

/-- `parseGenerations` fails as a whole as soon as any entry is invalid. -/
theorem parseGenerations_none (l : List (String × String))
    (h : ∃ p ∈ l, atoi p.2 = none) :
    parseGenerations l = none := by
  induction l with
  | nil => simp at h
  | cons p t ih =>
    obtain ⟨k, s⟩ := p
    obtain ⟨q, hq, hqn⟩ := h
    rcases List.mem_cons.mp hq with rfl | hq₂
    · simp [parseGenerations, hqn]
    · cases hg : atoi s with
      | none => simp [parseGenerations, hg]
      | some g => simp [parseGenerations, hg, ih ⟨q, hq₂, hqn⟩]

/-- C8: `GetIndexedBackfills` returns the full `allBackfills` contents as an
id-to-generation map when every stored value parses as an integer, and
fails with `Internal` — returning no partial map — as soon as any single
stored value does not. -/
theorem getIndexedBackfills_allOrNothing (st : RedisState) :
    ((∀ p ∈ st.index, (atoi p.2).isSome) →
      ∃ m, GetIndexedBackfills st false false = (some m, none) ∧
        ∀ id gen, (id, gen) ∈ m ↔
          ∃ s, (id, s) ∈ st.index ∧ atoi s = some gen) ∧
    ((∃ p ∈ st.index, atoi p.2 = none) →
      GetIndexedBackfills st false false = (none, some .internal)) := by
  constructor
  · intro h
    obtain ⟨m, hm, hiff⟩ := parseGenerations_isSome st.index h
    exact ⟨m, by simp [GetIndexedBackfills, rHGETALL, hm], hiff⟩
  · intro h
    simp [GetIndexedBackfills, rHGETALL, parseGenerations_none st.index h]

/-- Witness for C8: an all-valid index is returned whole; adding one
non-numeric value fails the whole read with `Internal`. -/
theorem getIndexedBackfills_allOrNothing_witness :
    (∃ m, GetIndexedBackfills ⟨[], [], [("a", "12"), ("b", "-3")]⟩
        false false = (some m, none) ∧
      ∀ id gen, (id, gen) ∈ m ↔
        ∃ s, (id, s) ∈ [("a", "12"), ("b", "-3")] ∧ atoi s = some gen) ∧
    GetIndexedBackfills ⟨[], [], [("a", "12"), ("c", "x7")]⟩ false false =
      (none, some .internal) :=
  ⟨(getIndexedBackfills_allOrNothing ⟨[], [], [("a", "12"), ("b", "-3")]⟩).1
      (by decide),
    (getIndexedBackfills_allOrNothing ⟨[], [], [("a", "12"), ("c", "x7")]⟩).2
      (by decide)⟩

/-- C10: `IndexBackfill` and `DeindexBackfill` only buffer their hash
command; once buffering succeeded they return no error, whatever the
engine-side outcome of the buffered command is — an execution failure is
never surfaced. -/
theorem indexDeindex_ignore_execution (st : RedisState) (b : Backfill)
    (id : String) (execFails : Bool) :
    (IndexBackfill st b false false execFails).2 = none ∧
    (DeindexBackfill st id false false execFails).2 = none := by
  cases execFails <;> simp [IndexBackfill, DeindexBackfill]

end OpenMatchBackfill
